import Mathlib

/-!
Verification of the volumetric-world core (chunk streaming, SDF sampling,
marching-cubes extraction, character controller) against its specification.

The development shallowly embeds the C++ sources:
  * `chunk.h` / `chunk_manager.cpp` : chunk data model and streaming set,
  * `camera.cpp`                    : field sampler, gradient probe, friction, jump,
  * `marching_cubes.cpp`            : isosurface extraction.

`float` arithmetic is embedded as exact rational arithmetic (`ℚ`); the two
square-root normalisations (gradient normals) land in `ℝ`.  C arrays are
embedded as total functions on `ℤ`; every array access in the embedded code
paths is guarded exactly as in the source, so only in-range indices are read.
-/

/-! ## Chunk data model (`chunk.h`) -/

/-- `constexpr int CHUNK_CUBES = 32` (chunk.h line 9). -/
def CHUNK_CUBES : ℤ := 32

/-- `constexpr int CHUNK_SIZE = CHUNK_CUBES + 1` (chunk.h line 10). -/
def CHUNK_SIZE : ℤ := CHUNK_CUBES + 1

/-- `constexpr float CHUNK_WORLD_SIZE = 16.0f` (chunk.h line 11). -/
def CHUNK_WORLD_SIZE : ℚ := 16

/-- `constexpr float VOXEL_SIZE = CHUNK_WORLD_SIZE / CHUNK_CUBES` (chunk.h line 12). -/
def VOXEL_SIZE : ℚ := CHUNK_WORLD_SIZE / (CHUNK_CUBES : ℚ)

/-- Integer chunk coordinate (chunk.h lines 15-25); equality is by value. -/
structure ChunkCoord where
  x : ℤ
  y : ℤ
  z : ℤ
deriving DecidableEq

/-- A chunk of SDF samples (chunk.h lines 42-71).  The fixed 33×33×33 `float`
array is embedded as a total function on `ℤ`; the embedded code only ever reads
indices `0..32`, guarded as in the source.  Rendering-only fields (Vulkan
buffer handles, vertex count, world bounds) are omitted: no claim reads them.
The three lifecycle flags `generationQueued` / `generationInProgress` /
`uploadInProgress` are read by `ChunkManager::updateChunks`
(chunk_manager.cpp lines 69-70) as atomics; their declaration is not in the
snapshot's `chunk.h`.  Modelled from the spec: §5 describes them as independent
per-chunk boolean flags set by workers and checked before eviction, so they are
embedded as `Bool` fields, `false` on a freshly constructed chunk (§4.2: a new
chunk starts in `Empty`/`Queued` before any worker touches it). -/
structure VolumeChunk where
  coord : ChunkCoord
  sdf : ℤ → ℤ → ℤ → ℚ
  meshGenerated : Bool
  meshUploaded : Bool
  generationQueued : Bool
  generationInProgress : Bool
  uploadInProgress : Bool

/-- The `VolumeChunk()` constructor (chunk.h lines 61-70): every SDF sample is
initialised to `-1.0f` (air); bool state flags start `false` (chunk.h lines
54-55).  `coord` is assigned by the creator (chunk_manager.cpp line 16), so the
embedding takes it as an argument. -/
def initChunk (c : ChunkCoord) : VolumeChunk :=
  { coord := c
    sdf := fun _ _ _ => -1
    meshGenerated := false
    meshUploaded := false
    generationQueued := false
    generationInProgress := false
    uploadInProgress := false }

/-- `chunkToWorldPos` (chunk.h lines 74-80). -/
def chunkToWorldPos (c : ChunkCoord) : ℚ × ℚ × ℚ :=
  ((c.x : ℚ) * CHUNK_WORLD_SIZE, (c.y : ℚ) * CHUNK_WORLD_SIZE, (c.z : ℚ) * CHUNK_WORLD_SIZE)

/-- `worldToChunkCoord` (chunk.h lines 82-88): `floor` of each component over
the chunk world size. -/
def worldToChunkCoord (p : ℚ × ℚ × ℚ) : ChunkCoord :=
  ⟨⌊p.1 / CHUNK_WORLD_SIZE⌋, ⌊p.2.1 / CHUNK_WORLD_SIZE⌋, ⌊p.2.2 / CHUNK_WORLD_SIZE⌋⟩

/-- C `(int)` cast of a non-negative-or-negative float: truncation toward
zero.  All guarded uses in the embedded code have a non-negative argument,
where this agrees with `⌊·⌋`. -/
def cIntCast (q : ℚ) : ℤ := if q < 0 then -⌊-q⌋ else ⌊q⌋

/-! ## Chunk streaming set (`chunk_manager.cpp`)

The `std::unordered_map<ChunkCoord, std::unique_ptr<VolumeChunk>>` is embedded
as a partial mapping `ChunkCoord → Option VolumeChunk`; `find` is application,
`insert`/`erase` are pointwise updates. -/

def ChunkStore : Type := ChunkCoord → Option VolumeChunk

/-- `ChunkManager::getOrCreateChunk` (chunk_manager.cpp lines 7-23): if the
coordinate is mapped, return the existing chunk and leave the map untouched;
otherwise construct a fresh `VolumeChunk`, set its coordinate, store it and
return it.  The returned pair is (returned chunk, map after the call). -/
def ChunkManager.getOrCreateChunk (chunks : ChunkStore) (coord : ChunkCoord) :
    VolumeChunk × ChunkStore :=
  match chunks coord with
  | some ch => (ch, chunks)
  | none =>
      let ch := initChunk coord
      (ch, fun c => if c = coord then some ch else chunks c)

/-- The load loop of `ChunkManager::updateChunks` (chunk_manager.cpp lines
37-57), rendered pointwise: after the loop, a coordinate is mapped iff it was
mapped before (to the same chunk — the loop only inserts at absent keys) or it
lies in the load window `|dx| ≤ loadRadius, |dy| ≤ 1, |dz| ≤ loadRadius`
around the camera chunk (`verticalRadius = 1`, line 38), in which case
`getOrCreateChunk` has inserted a freshly constructed chunk. -/
def ChunkManager.loadPass (chunks : ChunkStore) (cameraChunk : ChunkCoord)
    (loadRadius : ℤ) : ChunkStore := fun c =>
  match chunks c with
  | some ch => some ch
  | none =>
      if |c.x - cameraChunk.x| ≤ loadRadius ∧ |c.y - cameraChunk.y| ≤ 1 ∧
          |c.z - cameraChunk.z| ≤ loadRadius then
        some (initChunk c)
      else none

/-- `ChunkManager::updateChunks` (chunk_manager.cpp lines 33-88), as the map
transformation it performs: first the load loop (lines 37-57), then the unload
scan (lines 59-79), which erases exactly the chunks whose distance from the
camera chunk exceeds `unloadRadius` horizontally or
`verticalUnloadRadius = unloadRadius * 2` vertically (line 61) *and* whose
three lifecycle flags are all clear (lines 69-70).  The returned list of newly
created chunks (used by the caller to drive generation) is not modelled; no
claim mentions it. -/
def ChunkManager.updateChunks (chunks : ChunkStore) (cameraPos : ℚ × ℚ × ℚ)
    (loadRadius unloadRadius : ℤ) : ChunkStore := fun c =>
  let cameraChunk := worldToChunkCoord cameraPos
  match ChunkManager.loadPass chunks cameraChunk loadRadius c with
  | none => none
  | some ch =>
      if (|c.x - cameraChunk.x| > unloadRadius ∨
            |c.y - cameraChunk.y| > unloadRadius * 2 ∨
            |c.z - cameraChunk.z| > unloadRadius) ∧
          ch.generationQueued = false ∧ ch.generationInProgress = false ∧
          ch.uploadInProgress = false then
        none
      else some ch

/-! ### Claims C1, C2, C8 -/

/-- **C1.**  A chunk with any lifecycle flag set (generation queued, generation
in progress, or upload in progress — any combination with at least one true) is
never erased by `updateChunks`, whatever its distance from the observer: the
erase at chunk_manager.cpp lines 69-71 requires all three flags false. -/
theorem updateChunks_never_evicts_flagged (chunks : ChunkStore)
    (cameraPos : ℚ × ℚ × ℚ) (loadRadius unloadRadius : ℤ) (c : ChunkCoord)
    (ch : VolumeChunk) (hc : chunks c = some ch)
    (hflag : ch.generationQueued = true ∨ ch.generationInProgress = true ∨
      ch.uploadInProgress = true) :
    ChunkManager.updateChunks chunks cameraPos loadRadius unloadRadius c = some ch := by
  unfold ChunkManager.updateChunks ChunkManager.loadPass
  rw [hc]
  simp only
  rw [if_neg]
  rintro ⟨-, hq, hg, hu⟩
  rcases hflag with h | h | h <;> simp [h] at hq hg hu

/-- Witness for C1: a queued chunk far outside the unload radius survives a
concrete `updateChunks` pass. -/
theorem updateChunks_never_evicts_flagged_witness :
    ChunkManager.updateChunks
      (fun c => if c = ⟨5, 5, 5⟩ then
        some { initChunk ⟨5, 5, 5⟩ with generationQueued := true } else none)
      (0, 0, 0) 1 1 ⟨5, 5, 5⟩ =
      some { initChunk ⟨5, 5, 5⟩ with generationQueued := true } :=
  updateChunks_never_evicts_flagged _ _ _ _ _ _ (by simp) (Or.inl rfl)

/-- **C8.**  `getOrCreateChunk` is idempotent: a second call with the same
coordinate returns the chunk stored by the first call, leaves the map
unchanged, and does not touch the chunk's SDF samples; the map holds that
single chunk at the coordinate. -/
theorem getOrCreateChunk_idempotent (chunks : ChunkStore) (coord : ChunkCoord) :
    (ChunkManager.getOrCreateChunk
        (ChunkManager.getOrCreateChunk chunks coord).2 coord).1 =
      (ChunkManager.getOrCreateChunk chunks coord).1 ∧
    (ChunkManager.getOrCreateChunk
        (ChunkManager.getOrCreateChunk chunks coord).2 coord).2 =
      (ChunkManager.getOrCreateChunk chunks coord).2 ∧
    (ChunkManager.getOrCreateChunk
        (ChunkManager.getOrCreateChunk chunks coord).2 coord).1.sdf =
      (ChunkManager.getOrCreateChunk chunks coord).1.sdf ∧
    (ChunkManager.getOrCreateChunk chunks coord).2 coord =
      some (ChunkManager.getOrCreateChunk chunks coord).1 := by
  unfold ChunkManager.getOrCreateChunk
  cases h : chunks coord <;> simp [h]

/-- **C2, counterexample.**  With an empty store, observer at the origin and
`L = U = 2`, the coordinate `(0, 2, 0)` is within Chebyshev distance 2 of the
observer's chunk `(0, 0, 0)` yet is *not* present after `updateChunks`: the
load loop uses a fixed vertical radius of 1 (chunk_manager.cpp line 38), not
the Chebyshev ball of radius `L`. -/
theorem updateChunks_coverage_counterexample :
    max |(0 : ℤ) - 0| (max |(2 : ℤ) - 0| |(0 : ℤ) - 0|) ≤ 2 ∧
    worldToChunkCoord (0, 0, 0) = ⟨0, 0, 0⟩ ∧
    ChunkManager.updateChunks (fun _ => none) (0, 0, 0) 2 2 ⟨0, 2, 0⟩ = none := by
  refine ⟨by decide, ?_, ?_⟩
  · unfold worldToChunkCoord
    norm_num
  · unfold ChunkManager.updateChunks ChunkManager.loadPass worldToChunkCoord
    norm_num

/-- **C2, amended.**  After `updateChunks(pos, L, U)` with `L ≤ U` and
`1 ≤ U`: (a) every coordinate within distance `L` of the observer's chunk on
the horizontal axes and within the fixed vertical load radius 1 on the
vertical axis is present; (b) every coordinate still present afterwards whose
generation-queued, generation-in-progress and upload-in-progress flags are all
false is within distance `U` on the horizontal axes and within the vertical
unload radius `2·U` on the vertical axis.  (A present chunk with a flag set
may remain at any distance — see C1.) -/
theorem updateChunks_coverage (chunks : ChunkStore) (cameraPos : ℚ × ℚ × ℚ)
    (loadRadius unloadRadius : ℤ) (hLU : loadRadius ≤ unloadRadius)
    (hU : 1 ≤ unloadRadius) :
    (∀ c : ChunkCoord,
      |c.x - (worldToChunkCoord cameraPos).x| ≤ loadRadius →
      |c.y - (worldToChunkCoord cameraPos).y| ≤ 1 →
      |c.z - (worldToChunkCoord cameraPos).z| ≤ loadRadius →
      ∃ ch, ChunkManager.updateChunks chunks cameraPos loadRadius unloadRadius c =
        some ch) ∧
    (∀ c : ChunkCoord, ∀ ch : VolumeChunk,
      ChunkManager.updateChunks chunks cameraPos loadRadius unloadRadius c =
        some ch →
      ch.generationQueued = false → ch.generationInProgress = false →
      ch.uploadInProgress = false →
      |c.x - (worldToChunkCoord cameraPos).x| ≤ unloadRadius ∧
      |c.y - (worldToChunkCoord cameraPos).y| ≤ unloadRadius * 2 ∧
      |c.z - (worldToChunkCoord cameraPos).z| ≤ unloadRadius) := by
  constructor
  · intro c hx hy hz
    unfold ChunkManager.updateChunks ChunkManager.loadPass
    have hfar : ¬ (|c.x - (worldToChunkCoord cameraPos).x| > unloadRadius ∨
        |c.y - (worldToChunkCoord cameraPos).y| > unloadRadius * 2 ∨
        |c.z - (worldToChunkCoord cameraPos).z| > unloadRadius) := by
      push_neg
      exact ⟨hx.trans hLU, hy.trans (by linarith), hz.trans hLU⟩
    cases h : chunks c with
    | some ch =>
        refine ⟨ch, ?_⟩
        simp only [h]
        rw [if_neg fun hcon => hfar hcon.1]
    | none =>
        refine ⟨initChunk c, ?_⟩
        simp only [h]
        rw [if_pos ⟨hx, hy, hz⟩]
        simp only
        rw [if_neg fun hcon => hfar hcon.1]
  · intro c ch hsome hq hg hu
    unfold ChunkManager.updateChunks at hsome
    simp only at hsome
    rcases hload : ChunkManager.loadPass chunks (worldToChunkCoord cameraPos)
        loadRadius c with _ | ch'
    · rw [hload] at hsome
      exact absurd hsome (by simp)
    · rw [hload] at hsome
      simp only at hsome
      by_cases hfar : |c.x - (worldToChunkCoord cameraPos).x| > unloadRadius ∨
          |c.y - (worldToChunkCoord cameraPos).y| > unloadRadius * 2 ∨
          |c.z - (worldToChunkCoord cameraPos).z| > unloadRadius
      · by_cases hclear : ch'.generationQueued = false ∧
            ch'.generationInProgress = false ∧ ch'.uploadInProgress = false
        · rw [if_pos ⟨hfar, hclear.1, hclear.2.1, hclear.2.2⟩] at hsome
          exact absurd hsome (by simp)
        · rw [if_neg fun hcon => hclear ⟨hcon.2.1, hcon.2.2.1, hcon.2.2.2⟩] at hsome
          have hch : ch' = ch := by injection hsome
          subst hch
          exact absurd ⟨hq, hg, hu⟩ hclear
      · push_neg at hfar
        exact ⟨hfar.1, hfar.2.1, hfar.2.2⟩

/-- Witness for C2 (amended): one concrete pass on the empty store with
`L = U = 1` makes the corner coordinate `(1, 1, 1)` of the load window
present. -/
theorem updateChunks_coverage_witness :
    ∃ ch, ChunkManager.updateChunks (fun _ => none) (0, 0, 0) 1 1 ⟨1, 1, 1⟩ =
      some ch :=
  (updateChunks_coverage (fun _ => none) (0, 0, 0) 1 1 le_rfl le_rfl).1
    ⟨1, 1, 1⟩
    (by unfold worldToChunkCoord; norm_num)
    (by unfold worldToChunkCoord; norm_num)
    (by unfold worldToChunkCoord; norm_num)

/-! ## Field sampler (`camera.cpp` lines 166-213) -/

/-- The body of `sampleSDF` after the chunk lookup (camera.cpp lines 181-212):
bounds check on the voxel-fractional coordinates against `[0, CHUNK_SIZE - 1)`
(returning the `-10` sentinel when out of range), then trilinear interpolation
across the 8 surrounding samples.  The C `(int)` casts truncate toward zero
(`cIntCast`). -/
def sampleSDFLocal (chunk : VolumeChunk) (voxelPos : ℚ × ℚ × ℚ) : ℚ :=
  if voxelPos.1 < 0 ∨ voxelPos.1 ≥ (CHUNK_SIZE : ℚ) - 1 ∨
      voxelPos.2.1 < 0 ∨ voxelPos.2.1 ≥ (CHUNK_SIZE : ℚ) - 1 ∨
      voxelPos.2.2 < 0 ∨ voxelPos.2.2 ≥ (CHUNK_SIZE : ℚ) - 1 then
    -10
  else
    let x0 := cIntCast voxelPos.1
    let y0 := cIntCast voxelPos.2.1
    let z0 := cIntCast voxelPos.2.2
    let x1 := x0 + 1
    let y1 := y0 + 1
    let z1 := z0 + 1
    let fx := voxelPos.1 - (x0 : ℚ)
    let fy := voxelPos.2.1 - (y0 : ℚ)
    let fz := voxelPos.2.2 - (z0 : ℚ)
    let c00 := chunk.sdf x0 y0 z0 * (1 - fx) + chunk.sdf x1 y0 z0 * fx
    let c01 := chunk.sdf x0 y0 z1 * (1 - fx) + chunk.sdf x1 y0 z1 * fx
    let c10 := chunk.sdf x0 y1 z0 * (1 - fx) + chunk.sdf x1 y1 z0 * fx
    let c11 := chunk.sdf x0 y1 z1 * (1 - fx) + chunk.sdf x1 y1 z1 * fx
    let c0 := c00 * (1 - fy) + c10 * fy
    let c1 := c01 * (1 - fy) + c11 * fy
    c0 * (1 - fz) + c1 * fz

/-- `sampleSDF` (camera.cpp lines 166-213): resolve the owning chunk
coordinate; a missing chunk yields the `-10.0f` "air" sentinel (line 174);
otherwise convert to voxel-fractional local coordinates and interpolate. -/
def sampleSDF (chunks : ChunkStore) (worldPos : ℚ × ℚ × ℚ) : ℚ :=
  match chunks (worldToChunkCoord worldPos) with
  | none => -10
  | some chunk =>
      let cw := chunkToWorldPos (worldToChunkCoord worldPos)
      sampleSDFLocal chunk
        ((worldPos.1 - cw.1) / VOXEL_SIZE, (worldPos.2.1 - cw.2.1) / VOXEL_SIZE,
          (worldPos.2.2 - cw.2.2) / VOXEL_SIZE)

/-- World position of the sample-grid corner `(i, j, k)` of the chunk at
coordinate `c` — exactly the position the generator samples when filling
`sdf[i][j][k]` (volume_generator.cpp lines 39-46). -/
def cornerWorldPos (c : ChunkCoord) (i j k : ℤ) : ℚ × ℚ × ℚ :=
  ((chunkToWorldPos c).1 + (i : ℚ) * VOXEL_SIZE,
    (chunkToWorldPos c).2.1 + (j : ℚ) * VOXEL_SIZE,
    (chunkToWorldPos c).2.2 + (k : ℚ) * VOXEL_SIZE)

/-- **C4.**  (a) A field sample at a world position whose owning chunk
coordinate is absent returns the fixed `-10` sentinel and in particular never
registers as solid (never `> 0`); (b) an out-of-range local voxel coordinate
returns the same sentinel. -/
theorem sampleSDF_missing_chunk_sentinel :
    (∀ (chunks : ChunkStore) (worldPos : ℚ × ℚ × ℚ),
      chunks (worldToChunkCoord worldPos) = none →
      sampleSDF chunks worldPos = -10 ∧ ¬ 0 < sampleSDF chunks worldPos) ∧
    (∀ (chunk : VolumeChunk) (voxelPos : ℚ × ℚ × ℚ),
      (voxelPos.1 < 0 ∨ voxelPos.1 ≥ (CHUNK_SIZE : ℚ) - 1 ∨
        voxelPos.2.1 < 0 ∨ voxelPos.2.1 ≥ (CHUNK_SIZE : ℚ) - 1 ∨
        voxelPos.2.2 < 0 ∨ voxelPos.2.2 ≥ (CHUNK_SIZE : ℚ) - 1) →
      sampleSDFLocal chunk voxelPos = -10) := by
  constructor
  · intro chunks worldPos h
    unfold sampleSDF
    rw [h]
    norm_num
  · intro chunk voxelPos h
    unfold sampleSDFLocal
    rw [if_pos h]

/-- Witness for C4: the empty store at the origin samples to `-10`, and a local
coordinate past the high edge hits the sentinel. -/
theorem sampleSDF_missing_chunk_sentinel_witness :
    (sampleSDF (fun _ => none) (0, 0, 0) = -10 ∧
      ¬ 0 < sampleSDF (fun _ => none) (0, 0, 0)) ∧
    sampleSDFLocal (initChunk ⟨0, 0, 0⟩) (33, 0, 0) = -10 :=
  ⟨sampleSDF_missing_chunk_sentinel.1 (fun _ => none) (0, 0, 0) rfl,
    sampleSDF_missing_chunk_sentinel.2 (initChunk ⟨0, 0, 0⟩) (33, 0, 0)
      (Or.inr (Or.inl (by unfold CHUNK_SIZE CHUNK_CUBES; norm_num)))⟩

lemma voxelSize_eq : VOXEL_SIZE = 1 / 2 := by
  unfold VOXEL_SIZE CHUNK_WORLD_SIZE CHUNK_CUBES
  norm_num

lemma cIntCast_intCast (i : ℤ) : cIntCast (i : ℚ) = i := by
  unfold cIntCast
  split
  · rw [show (-(i : ℚ)) = ((-i : ℤ) : ℚ) by push_cast; ring, Int.floor_intCast]
    ring
  · exact Int.floor_intCast i

/-- The world position of a grid corner with index below the high edge resolves
to the owning chunk's own coordinate. -/
lemma floor_corner (n i : ℤ) (h0 : 0 ≤ i) (h1 : i ≤ 31) :
    ⌊((n : ℚ) * CHUNK_WORLD_SIZE + (i : ℚ) * VOXEL_SIZE) / CHUNK_WORLD_SIZE⌋ = n := by
  rw [voxelSize_eq]
  unfold CHUNK_WORLD_SIZE
  have he : ((n : ℚ) * 16 + (i : ℚ) * (1 / 2)) / 16 = (n : ℚ) + (i : ℚ) / 32 := by
    ring
  rw [he, Int.floor_int_add]
  have hz : ⌊(i : ℚ) / 32⌋ = 0 := by
    rw [Int.floor_eq_zero_iff, Set.mem_Ico]
    constructor
    · positivity
    · rw [div_lt_one (by norm_num)]
      exact_mod_cast h1.trans_lt (by norm_num)
  rw [hz, add_zero]

/-- Interpolating at an exact grid corner (indices below the high edge)
reproduces the stored sample. -/
lemma sampleSDFLocal_grid_corner (chunk : VolumeChunk) (i j k : ℤ)
    (hi0 : 0 ≤ i) (hi1 : i ≤ 31) (hj0 : 0 ≤ j) (hj1 : j ≤ 31)
    (hk0 : 0 ≤ k) (hk1 : k ≤ 31) :
    sampleSDFLocal chunk ((i : ℚ), (j : ℚ), (k : ℚ)) = chunk.sdf i j k := by
  unfold sampleSDFLocal
  have hb : ∀ m : ℤ, 0 ≤ m → m ≤ 31 →
      0 ≤ (m : ℚ) ∧ (m : ℚ) < (CHUNK_SIZE : ℚ) - 1 := by
    intro m hm0 hm1
    unfold CHUNK_SIZE CHUNK_CUBES
    push_cast
    constructor
    · exact_mod_cast hm0
    · have hm : (m : ℚ) ≤ 31 := by exact_mod_cast hm1
      linarith
  rw [if_neg]
  · simp only [cIntCast_intCast, sub_self]
    ring
  · push_neg
    exact ⟨(hb i hi0 hi1).1, (hb i hi0 hi1).2, (hb j hj0 hj1).1, (hb j hj0 hj1).2,
      (hb k hk0 hk1).1, (hb k hk0 hk1).2⟩

/-- **C7, amended.**  Sampling the field at a loaded chunk's own stored grid
corner `(i, j, k)` reproduces the stored value `sdf[i][j][k]` exactly — no
interpolation error at grid points — *provided every index is at most
`CHUNK_CUBES - 1 = 31`*.  A corner on the chunk's high edge (index 32) lies at
the world boundary owned by the neighbouring chunk coordinate, so the sampler
does not read it from this chunk (see the counterexample). -/
theorem sampleSDF_corner_roundTrip (chunks : ChunkStore) (c : ChunkCoord)
    (chunk : VolumeChunk) (i j k : ℤ) (hc : chunks c = some chunk)
    (hi0 : 0 ≤ i) (hi1 : i ≤ CHUNK_CUBES - 1) (hj0 : 0 ≤ j)
    (hj1 : j ≤ CHUNK_CUBES - 1) (hk0 : 0 ≤ k) (hk1 : k ≤ CHUNK_CUBES - 1) :
    sampleSDF chunks (cornerWorldPos c i j k) = chunk.sdf i j k := by
  have h31 : CHUNK_CUBES - 1 = 31 := by unfold CHUNK_CUBES; norm_num
  rw [h31] at hi1 hj1 hk1
  have hcoord : worldToChunkCoord (cornerWorldPos c i j k) = c := by
    unfold worldToChunkCoord cornerWorldPos chunkToWorldPos
    simp only
    rw [floor_corner c.x i hi0 hi1, floor_corner c.y j hj0 hj1,
      floor_corner c.z k hk0 hk1]
  unfold sampleSDF
  rw [hcoord, hc]
  simp only
  have hlocal : ∀ n m : ℤ,
      ((n : ℚ) * CHUNK_WORLD_SIZE + (m : ℚ) * VOXEL_SIZE -
        (n : ℚ) * CHUNK_WORLD_SIZE) / VOXEL_SIZE = (m : ℚ) := by
    intro n m
    rw [voxelSize_eq]
    ring
  unfold cornerWorldPos chunkToWorldPos
  simp only
  rw [hlocal c.x i, hlocal c.y j, hlocal c.z k]
  exact sampleSDFLocal_grid_corner chunk i j k hi0 hi1 hj0 hj1 hk0 hk1

/-- **C7, counterexample.**  The claim fails at a high-edge corner: a single
loaded chunk at `(0,0,0)` stores `5` at corner `(32, 0, 0)`, but sampling at
that corner's world position `(16, 0, 0)` resolves to the absent neighbour
chunk `(1, 0, 0)` and returns the `-10` sentinel instead of `5`. -/
theorem sampleSDF_corner_roundTrip_counterexample :
    (fun c => if c = (⟨0, 0, 0⟩ : ChunkCoord) then
        some { initChunk ⟨0, 0, 0⟩ with
                 sdf := fun i _ _ => if i = 32 then 5 else -1 }
      else none : ChunkStore) (worldToChunkCoord (cornerWorldPos ⟨0, 0, 0⟩ 32 0 0)) =
      none ∧
    sampleSDF
      (fun c => if c = (⟨0, 0, 0⟩ : ChunkCoord) then
        some { initChunk ⟨0, 0, 0⟩ with
                 sdf := fun i _ _ => if i = 32 then 5 else -1 }
      else none)
      (cornerWorldPos ⟨0, 0, 0⟩ 32 0 0) = -10 ∧
    (VolumeChunk.sdf
      { initChunk ⟨0, 0, 0⟩ with
          sdf := fun i _ _ => if i = 32 then 5 else -1 } 32 0 0 = 5) ∧
    (-10 : ℚ) ≠ 5 := by
  have hcw : cornerWorldPos ⟨0, 0, 0⟩ 32 0 0 = (16, 0, 0) := by
    unfold cornerWorldPos chunkToWorldPos
    rw [voxelSize_eq]
    unfold CHUNK_WORLD_SIZE
    norm_num
  have hcoord : worldToChunkCoord (16, 0, 0) = ⟨1, 0, 0⟩ := by
    unfold worldToChunkCoord CHUNK_WORLD_SIZE
    norm_num
  have hmiss : (fun c => if c = (⟨0, 0, 0⟩ : ChunkCoord) then
      some { initChunk ⟨0, 0, 0⟩ with
               sdf := fun i _ _ => if i = 32 then 5 else -1 }
    else none : ChunkStore) (worldToChunkCoord (cornerWorldPos ⟨0, 0, 0⟩ 32 0 0)) =
      none := by
    rw [hcw, hcoord]
    simp
  refine ⟨hmiss, ?_, by norm_num, by norm_num⟩
  unfold sampleSDF
  rw [hmiss]

/-- Witness for C7 (amended): reading back an interior corner of a concrete
one-chunk store returns the stored `-1`. -/
theorem sampleSDF_corner_roundTrip_witness :
    sampleSDF
      (fun c => if c = (⟨0, 0, 0⟩ : ChunkCoord) then some (initChunk ⟨0, 0, 0⟩)
        else none)
      (cornerWorldPos ⟨0, 0, 0⟩ 3 4 5) = (initChunk ⟨0, 0, 0⟩).sdf 3 4 5 :=
  sampleSDF_corner_roundTrip _ ⟨0, 0, 0⟩ _ 3 4 5 (by simp) (by norm_num)
    (by unfold CHUNK_CUBES; norm_num) (by norm_num)
    (by unfold CHUNK_CUBES; norm_num) (by norm_num)
    (by unfold CHUNK_CUBES; norm_num)

/-! ## Isosurface extraction (`marching_cubes.cpp`)

The precomputed lookup tables live in `marching_cubes_tables.h`, which is not
part of the source snapshot; they are modelled from the spec (§4.4, §9: "a
fixed external data table", "a direct port").  The cube-marching driver itself
(`MarchingCubes::generateMesh`) is embedded from `marching_cubes.cpp`. -/

/-- `MarchingCubes::MarchingCubes()` sets `isoLevel(0.0f)`
(marching_cubes.cpp line 5); nothing ever changes it. -/
def MarchingCubes.isoLevel : ℚ := 0

/-- The corner offset table of `getCornerPos` (marching_cubes.cpp lines
108-111), which also fixes which sample each of `cubeValues[0..7]` reads
(lines 17-24). -/
def MarchingCubes.cornerOffset : ℕ → ℤ × ℤ × ℤ
  | 0 => (0, 0, 0) | 1 => (1, 0, 0) | 2 => (1, 0, 1) | 3 => (0, 0, 1)
  | 4 => (0, 1, 0) | 5 => (1, 1, 0) | 6 => (1, 1, 1) | 7 => (0, 1, 1)
  | _ => (0, 0, 0)

/-- `cubeValues[c]` for the cube at grid position `(x, y, z)`
(marching_cubes.cpp lines 17-24). -/
def MarchingCubes.cubeValue (chunk : VolumeChunk) (x y z : ℤ) (c : ℕ) : ℚ :=
  chunk.sdf (x + (MarchingCubes.cornerOffset c).1)
    (y + (MarchingCubes.cornerOffset c).2.1)
    (z + (MarchingCubes.cornerOffset c).2.2)

/-- The 8-bit inside mask (marching_cubes.cpp lines 27-32): bit `i` is set iff
`cubeValues[i] < isoLevel`. -/
def MarchingCubes.cubeIndex (chunk : VolumeChunk) (x y z : ℤ) : ℕ :=
  (if MarchingCubes.cubeValue chunk x y z 0 < MarchingCubes.isoLevel then 1 else 0) +
  (if MarchingCubes.cubeValue chunk x y z 1 < MarchingCubes.isoLevel then 2 else 0) +
  (if MarchingCubes.cubeValue chunk x y z 2 < MarchingCubes.isoLevel then 4 else 0) +
  (if MarchingCubes.cubeValue chunk x y z 3 < MarchingCubes.isoLevel then 8 else 0) +
  (if MarchingCubes.cubeValue chunk x y z 4 < MarchingCubes.isoLevel then 16 else 0) +
  (if MarchingCubes.cubeValue chunk x y z 5 < MarchingCubes.isoLevel then 32 else 0) +
  (if MarchingCubes.cubeValue chunk x y z 6 < MarchingCubes.isoLevel then 64 else 0) +
  (if MarchingCubes.cubeValue chunk x y z 7 < MarchingCubes.isoLevel then 128 else 0)

/-- The two cube corners joined by each of the 12 cube edges, exactly as the
`vertList` interpolations pair them (marching_cubes.cpp lines 48-71). -/
def MarchingCubes.edgeCorners : ℕ → ℕ × ℕ
  | 0 => (0, 1) | 1 => (1, 2) | 2 => (2, 3) | 3 => (3, 0)
  | 4 => (4, 5) | 5 => (5, 6) | 6 => (6, 7) | 7 => (7, 4)
  | 8 => (0, 4) | 9 => (1, 5) | 10 => (2, 6) | 11 => (3, 7)
  | _ => (0, 0)

/-- Modelled from the spec: `edgeTable` lives in the absent
`marching_cubes_tables.h`.  Per §4.4 its entry for a corner mask records
"which of the cube's 12 edges the surface crosses", an edge being crossed iff
its two endpoint corners lie on opposite sides of the iso-surface (only then
does the code interpolate a crossing point along it); the bit-per-edge layout
is fixed by the `edgeTable[cubeIndex] & (1 << e)` tests of marching_cubes.cpp
lines 48-71.  This derivation reproduces the standard 256-entry table; in
particular entry 0 (all corners outside) and entry 255 (all corners inside)
are `0`, which is what makes the uniform-cube skip at line 35 fire. -/
def MarchingCubes.edgeTable (mask : ℕ) : ℕ :=
  (List.range 12).foldr
    (fun e acc =>
      if mask.testBit (MarchingCubes.edgeCorners e).1 ≠
          mask.testBit (MarchingCubes.edgeCorners e).2 then
        acc + 2 ^ e
      else acc)
    0

/-- `MarchingCubes::getCornerPos` (marching_cubes.cpp lines 106-121). -/
def MarchingCubes.getCornerPos (chunk : VolumeChunk) (x y z : ℤ) (c : ℕ) :
    ℚ × ℚ × ℚ :=
  ((chunkToWorldPos chunk.coord).1 +
      ((x + (MarchingCubes.cornerOffset c).1 : ℤ) : ℚ) * VOXEL_SIZE,
    (chunkToWorldPos chunk.coord).2.1 +
      ((y + (MarchingCubes.cornerOffset c).2.1 : ℤ) : ℚ) * VOXEL_SIZE,
    (chunkToWorldPos chunk.coord).2.2 +
      ((z + (MarchingCubes.cornerOffset c).2.2 : ℤ) : ℚ) * VOXEL_SIZE)

/-- `MarchingCubes::interpolate` (marching_cubes.cpp lines 123-134):
near-equal values snap to an endpoint, otherwise linear interpolation of the
zero crossing. -/
def MarchingCubes.interpolate (val1 val2 : ℚ) (pos1 pos2 : ℚ × ℚ × ℚ) :
    ℚ × ℚ × ℚ :=
  if |MarchingCubes.isoLevel - val1| < 1 / 100000 then pos1
  else if |MarchingCubes.isoLevel - val2| < 1 / 100000 then pos2
  else if |val1 - val2| < 1 / 100000 then pos1
  else
    let t := (MarchingCubes.isoLevel - val1) / (val2 - val1)
    (pos1.1 + t * (pos2.1 - pos1.1), pos1.2.1 + t * (pos2.2.1 - pos1.2.1),
      pos1.2.2 + t * (pos2.2.2 - pos1.2.2))

/-- `vertList[e]` for a crossed edge `e` (marching_cubes.cpp lines 48-71): the
interpolated crossing point between the edge's two corners.  (The source
leaves `vertList[e]` uninitialised for uncrossed edges; well-formed triangle
rows never reference those.) -/
def MarchingCubes.vertOnEdge (chunk : VolumeChunk) (x y z : ℤ) (e : ℕ) :
    ℚ × ℚ × ℚ :=
  MarchingCubes.interpolate
    (MarchingCubes.cubeValue chunk x y z (MarchingCubes.edgeCorners e).1)
    (MarchingCubes.cubeValue chunk x y z (MarchingCubes.edgeCorners e).2)
    (MarchingCubes.getCornerPos chunk x y z (MarchingCubes.edgeCorners e).1)
    (MarchingCubes.getCornerPos chunk x y z (MarchingCubes.edgeCorners e).2)

/-- `MarchingCubes::sampleSDF` (marching_cubes.cpp lines 158-189): the
chunk-local trilinear sampler, clamping the voxel coordinates into
`[0, CHUNK_SIZE - 1.001]` and the high indices to `CHUNK_SIZE - 1`. -/
def MarchingCubes.sampleSDF (chunk : VolumeChunk) (localPos : ℚ × ℚ × ℚ) : ℚ :=
  let cl := fun q : ℚ => min (max (q / VOXEL_SIZE) 0) ((CHUNK_SIZE : ℚ) - 1001 / 1000)
  let vx := cl localPos.1
  let vy := cl localPos.2.1
  let vz := cl localPos.2.2
  let x0 := cIntCast vx
  let y0 := cIntCast vy
  let z0 := cIntCast vz
  let x1 := min (x0 + 1) (CHUNK_SIZE - 1)
  let y1 := min (y0 + 1) (CHUNK_SIZE - 1)
  let z1 := min (z0 + 1) (CHUNK_SIZE - 1)
  let fx := vx - (x0 : ℚ)
  let fy := vy - (y0 : ℚ)
  let fz := vz - (z0 : ℚ)
  let c00 := chunk.sdf x0 y0 z0 * (1 - fx) + chunk.sdf x1 y0 z0 * fx
  let c01 := chunk.sdf x0 y0 z1 * (1 - fx) + chunk.sdf x1 y0 z1 * fx
  let c10 := chunk.sdf x0 y1 z0 * (1 - fx) + chunk.sdf x1 y1 z0 * fx
  let c11 := chunk.sdf x0 y1 z1 * (1 - fx) + chunk.sdf x1 y1 z1 * fx
  let c0 := c00 * (1 - fy) + c10 * fy
  let c1 := c01 * (1 - fy) + c11 * fy
  c0 * (1 - fz) + c1 * fz

/-- `MarchingCubes::calculateNormal` (marching_cubes.cpp lines 136-156):
central differences of the chunk-local sampler at step `VOXEL_SIZE * 0.5`,
normalised; a near-zero gradient falls back to the canonical up vector. -/
noncomputable def MarchingCubes.calculateNormal (chunk : VolumeChunk)
    (localPos : ℚ × ℚ × ℚ) : ℝ × ℝ × ℝ :=
  let h := VOXEL_SIZE * (1 / 2)
  let dx := MarchingCubes.sampleSDF chunk (localPos.1 + h, localPos.2.1, localPos.2.2) -
    MarchingCubes.sampleSDF chunk (localPos.1 - h, localPos.2.1, localPos.2.2)
  let dy := MarchingCubes.sampleSDF chunk (localPos.1, localPos.2.1 + h, localPos.2.2) -
    MarchingCubes.sampleSDF chunk (localPos.1, localPos.2.1 - h, localPos.2.2)
  let dz := MarchingCubes.sampleSDF chunk (localPos.1, localPos.2.1, localPos.2.2 + h) -
    MarchingCubes.sampleSDF chunk (localPos.1, localPos.2.1, localPos.2.2 - h)
  let len : ℝ := Real.sqrt ((dx : ℝ) ^ 2 + (dy : ℝ) ^ 2 + (dz : ℝ) ^ 2)
  if 1 / 100000 < len then ((dx : ℝ) / len, (dy : ℝ) / len, (dz : ℝ) / len)
  else (0, 1, 0)

/-- `MarchingCubesVertex` (marching_cubes.h lines 7-10): a world-space
position and a colour channel carrying the mapped normal. -/
structure MarchingCubesVertex where
  pos : ℚ × ℚ × ℚ
  color : ℝ × ℝ × ℝ

/-- One emitted vertex (marching_cubes.cpp lines 75-93): the position is an
interpolated edge point; the colour is the SDF-gradient normal at the
chunk-local position mapped from `[-1,1]` to `[0,1]`. -/
noncomputable def MarchingCubes.makeVertex (chunk : VolumeChunk)
    (p : ℚ × ℚ × ℚ) : MarchingCubesVertex :=
  let lp := (p.1 - (chunkToWorldPos chunk.coord).1,
    p.2.1 - (chunkToWorldPos chunk.coord).2.1,
    p.2.2 - (chunkToWorldPos chunk.coord).2.2)
  let n := MarchingCubes.calculateNormal chunk lp
  ⟨p, (n.1 * (1 / 2) + 1 / 2, n.2.1 * (1 / 2) + 1 / 2, n.2.2 * (1 / 2) + 1 / 2)⟩

/-- The triangle-emission loop header
`for (i = 0; triTable[cubeIndex][i] != -1; i += 3)` (marching_cubes.cpp line
74): read edge-index triples from the table row until the first entry of a
triple is the `-1` sentinel. -/
def MarchingCubes.parseTriRow : List ℤ → List (ℤ × ℤ × ℤ)
  | a :: b :: c :: rest =>
      if a = -1 then [] else (a, b, c) :: MarchingCubes.parseTriRow rest
  | _ => []

/-- The body of `generateMesh` for one cube (marching_cubes.cpp lines 15-98):
skip the cube when its edge-table entry is `0` (line 35), otherwise emit three
vertices per table triangle, each vertex on the edge the table names.
`triTable` — the 256 sentinel-terminated rows of the absent
`marching_cubes_tables.h` — is passed as an argument; modelled from the spec
(§4.4: fixed external data, 256 entries keyed by mask, sentinel-terminated). -/
noncomputable def MarchingCubes.cubeMesh (triTable : ℕ → List ℤ)
    (chunk : VolumeChunk) (x y z : ℤ) : List MarchingCubesVertex :=
  if MarchingCubes.edgeTable (MarchingCubes.cubeIndex chunk x y z) = 0 then []
  else
    (MarchingCubes.parseTriRow
        (triTable (MarchingCubes.cubeIndex chunk x y z))).flatMap
      fun t =>
        [MarchingCubes.makeVertex chunk
            (MarchingCubes.vertOnEdge chunk x y z t.1.toNat),
          MarchingCubes.makeVertex chunk
            (MarchingCubes.vertOnEdge chunk x y z t.2.1.toNat),
          MarchingCubes.makeVertex chunk
            (MarchingCubes.vertOnEdge chunk x y z t.2.2.toNat)]

/-- `MarchingCubes::generateMesh` (marching_cubes.cpp lines 8-104): traverse
every unit cube of the sample grid (x outer, y middle, z inner) and
concatenate the per-cube triangle vertices. -/
noncomputable def MarchingCubes.generateMesh (triTable : ℕ → List ℤ)
    (chunk : VolumeChunk) : List MarchingCubesVertex :=
  (List.range 32).flatMap fun x =>
    (List.range 32).flatMap fun y =>
      (List.range 32).flatMap fun z =>
        MarchingCubes.cubeMesh triTable chunk (x : ℤ) (y : ℤ) (z : ℤ)

lemma flatMap_eq_nil_of {α β : Type _} (l : List α) (f : α → List β)
    (h : ∀ a ∈ l, f a = []) : l.flatMap f = [] := by
  induction l with
  | nil => rfl
  | cons a t ih =>
      have ha := h a (List.mem_cons_self a t)
      have ht := ih fun b hb => h b (List.mem_cons_of_mem a hb)
      simp [List.flatMap_cons, ha, ht]

lemma MarchingCubes.cornerOffset_bounds (c : ℕ) (hc : c ≤ 7) :
    0 ≤ (MarchingCubes.cornerOffset c).1 ∧ (MarchingCubes.cornerOffset c).1 ≤ 1 ∧
    0 ≤ (MarchingCubes.cornerOffset c).2.1 ∧
    (MarchingCubes.cornerOffset c).2.1 ≤ 1 ∧
    0 ≤ (MarchingCubes.cornerOffset c).2.2 ∧
    (MarchingCubes.cornerOffset c).2.2 ≤ 1 := by
  interval_cases c <;> decide

/-- A cube all of whose 8 corner samples are strictly negative has the
all-inside mask 255. -/
lemma MarchingCubes.cubeIndex_of_neg (chunk : VolumeChunk) (x y z : ℤ)
    (hx0 : 0 ≤ x) (hx1 : x ≤ 31) (hy0 : 0 ≤ y) (hy1 : y ≤ 31)
    (hz0 : 0 ≤ z) (hz1 : z ≤ 31)
    (h : ∀ i j k : ℤ, 0 ≤ i → i ≤ 32 → 0 ≤ j → j ≤ 32 → 0 ≤ k → k ≤ 32 →
      chunk.sdf i j k < 0) :
    MarchingCubes.cubeIndex chunk x y z = 255 := by
  have hv : ∀ c : ℕ, c ≤ 7 →
      MarchingCubes.cubeValue chunk x y z c < MarchingCubes.isoLevel := by
    intro c hc
    obtain ⟨h1, h2, h3, h4, h5, h6⟩ := MarchingCubes.cornerOffset_bounds c hc
    unfold MarchingCubes.cubeValue MarchingCubes.isoLevel
    exact h _ _ _ (by omega) (by omega) (by omega) (by omega) (by omega) (by omega)
  unfold MarchingCubes.cubeIndex
  rw [if_pos (hv 0 (by norm_num)), if_pos (hv 1 (by norm_num)),
    if_pos (hv 2 (by norm_num)), if_pos (hv 3 (by norm_num)),
    if_pos (hv 4 (by norm_num)), if_pos (hv 5 (by norm_num)),
    if_pos (hv 6 (by norm_num)), if_pos (hv 7 (by norm_num))]

/-- A cube all of whose 8 corner samples are strictly positive has the
all-outside mask 0. -/
lemma MarchingCubes.cubeIndex_of_pos (chunk : VolumeChunk) (x y z : ℤ)
    (hx0 : 0 ≤ x) (hx1 : x ≤ 31) (hy0 : 0 ≤ y) (hy1 : y ≤ 31)
    (hz0 : 0 ≤ z) (hz1 : z ≤ 31)
    (h : ∀ i j k : ℤ, 0 ≤ i → i ≤ 32 → 0 ≤ j → j ≤ 32 → 0 ≤ k → k ≤ 32 →
      0 < chunk.sdf i j k) :
    MarchingCubes.cubeIndex chunk x y z = 0 := by
  have hv : ∀ c : ℕ, c ≤ 7 →
      ¬ MarchingCubes.cubeValue chunk x y z c < MarchingCubes.isoLevel := by
    intro c hc
    obtain ⟨h1, h2, h3, h4, h5, h6⟩ := MarchingCubes.cornerOffset_bounds c hc
    unfold MarchingCubes.cubeValue MarchingCubes.isoLevel
    exact not_lt.mpr
      (h _ _ _ (by omega) (by omega) (by omega) (by omega) (by omega) (by omega)).le
  unfold MarchingCubes.cubeIndex
  rw [if_neg (hv 0 (by norm_num)), if_neg (hv 1 (by norm_num)),
    if_neg (hv 2 (by norm_num)), if_neg (hv 3 (by norm_num)),
    if_neg (hv 4 (by norm_num)), if_neg (hv 5 (by norm_num)),
    if_neg (hv 6 (by norm_num)), if_neg (hv 7 (by norm_num))]

lemma MarchingCubes.generateMesh_of_uniform_mask (triTable : ℕ → List ℤ)
    (chunk : VolumeChunk)
    (h : ∀ x y z : ℤ, 0 ≤ x → x ≤ 31 → 0 ≤ y → y ≤ 31 → 0 ≤ z → z ≤ 31 →
      MarchingCubes.cubeIndex chunk x y z = 0 ∨
        MarchingCubes.cubeIndex chunk x y z = 255) :
    MarchingCubes.generateMesh triTable chunk = [] := by
  unfold MarchingCubes.generateMesh
  refine flatMap_eq_nil_of _ _ fun x hx => flatMap_eq_nil_of _ _ fun y hy =>
    flatMap_eq_nil_of _ _ fun z hz => ?_
  rw [List.mem_range] at hx hy hz
  unfold MarchingCubes.cubeMesh
  rcases h (x : ℤ) (y : ℤ) (z : ℤ) (by omega) (by omega) (by omega) (by omega)
      (by omega) (by omega) with h0 | h255
  · rw [if_pos (by rw [h0]; decide)]
  · rw [if_pos (by rw [h255]; decide)]

/-- **C3.**  A chunk whose SDF samples are all strictly negative extracts to an
empty triangle list under the default iso-threshold 0, and likewise a chunk
whose samples are all strictly positive: in both cases every cube's corner mask
is uniform (0 or 255), its edge-table entry is 0, and the cube is skipped
(marching_cubes.cpp lines 27-37).  Stated for every triangle table, since the
skip never consults it. -/
theorem generateMesh_uniform_sign_empty (triTable : ℕ → List ℤ)
    (chunk : VolumeChunk) :
    ((∀ i j k : ℤ, 0 ≤ i → i ≤ 32 → 0 ≤ j → j ≤ 32 → 0 ≤ k → k ≤ 32 →
        chunk.sdf i j k < 0) →
      MarchingCubes.generateMesh triTable chunk = []) ∧
    ((∀ i j k : ℤ, 0 ≤ i → i ≤ 32 → 0 ≤ j → j ≤ 32 → 0 ≤ k → k ≤ 32 →
        0 < chunk.sdf i j k) →
      MarchingCubes.generateMesh triTable chunk = []) := by
  constructor
  · intro h
    exact MarchingCubes.generateMesh_of_uniform_mask triTable chunk
      fun x y z hx0 hx1 hy0 hy1 hz0 hz1 =>
        Or.inr (MarchingCubes.cubeIndex_of_neg chunk x y z hx0 hx1 hy0 hy1 hz0 hz1 h)
  · intro h
    exact MarchingCubes.generateMesh_of_uniform_mask triTable chunk
      fun x y z hx0 hx1 hy0 hy1 hz0 hz1 =>
        Or.inl (MarchingCubes.cubeIndex_of_pos chunk x y z hx0 hx1 hy0 hy1 hz0 hz1 h)

/-- Witness for C3: a concrete all-air chunk and a concrete all-solid chunk
both extract to the empty list (with a concrete sentinel-only table row). -/
theorem generateMesh_uniform_sign_empty_witness :
    MarchingCubes.generateMesh (fun _ => [-1]) (initChunk ⟨0, 0, 0⟩) = [] ∧
    MarchingCubes.generateMesh (fun _ => [-1])
      { initChunk ⟨0, 0, 0⟩ with sdf := fun _ _ _ => 1 } = [] :=
  ⟨(generateMesh_uniform_sign_empty (fun _ => [-1]) (initChunk ⟨0, 0, 0⟩)).1
      fun _ _ _ _ _ _ _ _ _ => by norm_num [initChunk],
    (generateMesh_uniform_sign_empty (fun _ => [-1])
        { initChunk ⟨0, 0, 0⟩ with sdf := fun _ _ _ => 1 }).2
      fun _ _ _ _ _ _ _ _ _ => by norm_num⟩

/-- **C10.**  A freshly constructed chunk has every SDF sample equal to `-1`
(air); the chunk created by `getOrCreateChunk` at an absent coordinate is
exactly such a chunk; its local field samples are negative (air) everywhere;
and mesh extraction on it yields zero triangles. -/
theorem newChunk_samples_air :
    (∀ (c : ChunkCoord) (i j k : ℤ), 0 ≤ i → i ≤ 32 → 0 ≤ j → j ≤ 32 →
      0 ≤ k → k ≤ 32 → (initChunk c).sdf i j k = -1) ∧
    (∀ (chunks : ChunkStore) (coord : ChunkCoord), chunks coord = none →
      (ChunkManager.getOrCreateChunk chunks coord).1 = initChunk coord) ∧
    (∀ (c : ChunkCoord) (v : ℚ × ℚ × ℚ), sampleSDFLocal (initChunk c) v < 0) ∧
    (∀ (triTable : ℕ → List ℤ) (c : ChunkCoord),
      MarchingCubes.generateMesh triTable (initChunk c) = []) := by
  refine ⟨fun _ _ _ _ _ _ _ _ _ _ => rfl, ?_, ?_, ?_⟩
  · intro chunks coord h
    unfold ChunkManager.getOrCreateChunk
    rw [h]
  · intro c v
    unfold sampleSDFLocal
    split
    · norm_num
    · simp only [initChunk]
      ring_nf
      norm_num
  · intro triTable c
    exact (generateMesh_uniform_sign_empty triTable (initChunk c)).1
      fun _ _ _ _ _ _ _ _ _ => by norm_num [initChunk]

/-- Witness for C10 at concrete inputs. -/
theorem newChunk_samples_air_witness :
    (initChunk ⟨0, 0, 0⟩).sdf 0 0 0 = -1 ∧
    (ChunkManager.getOrCreateChunk (fun _ => none) ⟨0, 0, 0⟩).1 =
      initChunk ⟨0, 0, 0⟩ ∧
    sampleSDFLocal (initChunk ⟨0, 0, 0⟩) (0, 0, 0) < 0 ∧
    MarchingCubes.generateMesh (fun _ => [-1]) (initChunk ⟨0, 0, 0⟩) = [] :=
  ⟨newChunk_samples_air.1 ⟨0, 0, 0⟩ 0 0 0 (by norm_num) (by norm_num)
      (by norm_num) (by norm_num) (by norm_num) (by norm_num),
    newChunk_samples_air.2.1 (fun _ => none) ⟨0, 0, 0⟩ rfl,
    newChunk_samples_air.2.2.1 ⟨0, 0, 0⟩ (0, 0, 0),
    newChunk_samples_air.2.2.2 (fun _ => [-1]) ⟨0, 0, 0⟩⟩

/-! ## Character controller (`camera.cpp`) -/

/-- The controller state touched by the claims (camera.h lines 12-29):
velocity, ground contact, mode flag, jump budget and the fixed jump strength.
Orientation, speeds and the remaining physics parameters are constants the
jump path never reads and are omitted. -/
structure Camera where
  velocity : ℚ × ℚ × ℚ
  onGround : Bool
  noclip : Bool
  jumpsRemaining : ℤ
  jumpStrength : ℚ

/-- `Camera::jump` (camera.cpp lines 155-164): a no-op in noclip mode; with
jumps remaining, set vertical velocity to the jump strength, consume one jump
and leave the ground; otherwise a no-op. -/
def Camera.jump (c : Camera) : Camera :=
  if c.noclip then c
  else if 0 < c.jumpsRemaining then
    { c with velocity := (c.velocity.1, c.jumpStrength, c.velocity.2.2)
             jumpsRemaining := c.jumpsRemaining - 1
             onGround := false }
  else c

/-- **C6.**  From a grounded state with 2 jumps remaining: the first and second
jump triggers each set vertical velocity to the fixed jump strength, after two
triggers 0 jumps remain, and a third trigger changes nothing at all (neither
velocity nor the jump count); in noclip mode `jump` is always a no-op. -/
theorem jump_budget (c : Camera) (hn : c.noclip = false)
    (hj : c.jumpsRemaining = 2) :
    (c.jump.velocity.2.1 = c.jumpStrength ∧ c.jump.jumpsRemaining = 1) ∧
    (c.jump.jump.velocity.2.1 = c.jumpStrength ∧
      c.jump.jump.jumpsRemaining = 0) ∧
    c.jump.jump.jump = c.jump.jump ∧
    (∀ d : Camera, d.noclip = true → d.jump = d) := by
  have h1 : c.jump =
      { c with velocity := (c.velocity.1, c.jumpStrength, c.velocity.2.2),
               jumpsRemaining := 1, onGround := false } := by
    unfold Camera.jump
    rw [hn]
    simp only [Bool.false_eq_true, if_false, hj]
    norm_num
  have h2 : c.jump.jump =
      { c with velocity := (c.velocity.1, c.jumpStrength, c.velocity.2.2),
               jumpsRemaining := 0, onGround := false } := by
    rw [h1]
    unfold Camera.jump
    rw [hn]
    norm_num
  refine ⟨⟨by rw [h1], by rw [h1]⟩, ⟨by rw [h2], by rw [h2]⟩, ?_, ?_⟩
  · rw [h2]
    unfold Camera.jump
    rw [hn]
    norm_num
  · intro d hd
    unfold Camera.jump
    rw [hd]
    simp

/-- Witness for C6 at a concrete grounded camera. -/
theorem jump_budget_witness :
    ((Camera.jump ⟨(0, 0, 0), true, false, 2, 8⟩).velocity.2.1 = 8 ∧
      (Camera.jump ⟨(0, 0, 0), true, false, 2, 8⟩).jumpsRemaining = 1) ∧
    ((Camera.jump (Camera.jump ⟨(0, 0, 0), true, false, 2, 8⟩)).velocity.2.1 = 8 ∧
      (Camera.jump (Camera.jump ⟨(0, 0, 0), true, false, 2, 8⟩)).jumpsRemaining = 0) ∧
    Camera.jump (Camera.jump (Camera.jump ⟨(0, 0, 0), true, false, 2, 8⟩)) =
      Camera.jump (Camera.jump ⟨(0, 0, 0), true, false, 2, 8⟩) ∧
    (∀ d : Camera, d.noclip = true → d.jump = d) :=
  jump_budget ⟨(0, 0, 0), true, false, 2, 8⟩ rfl rfl

/-- `friction = 15.0f` (camera.cpp line 110). -/
def friction : ℚ := 15

/-- The grounded no-input friction branch of `Camera::processKeyboard`
(camera.cpp lines 108-124) as a map on the horizontal velocity `(vx, vz)`.
The source computes `speed = ‖(vx, vz)‖`; when `speed > 0.001` it sets the new
horizontal velocity to `normalize(vx, vz) * max(0, speed − speed·friction·dt)`,
otherwise it zeroes both components.  Since `speed > 0` in the first branch,
`normalize(v) * max(0, speed − speed·friction·dt) = v * max(0, 1 − friction·dt)`
exactly, and `speed > 0.001 ↔ vx² + vz² > 0.001²`; both identities hold in
exact real arithmetic, rendering the update rationally without the square
root. -/
def frictionStep (deltaTime : ℚ) (v : ℚ × ℚ) : ℚ × ℚ :=
  if v.1 ^ 2 + v.2 ^ 2 > (1 / 1000) ^ 2 then
    (v.1 * max 0 (1 - friction * deltaTime), v.2 * max 0 (1 - friction * deltaTime))
  else (0, 0)

/-- Squared horizontal speed; the speed of the source is its square root, so
the speed strictly decreases exactly when this does. -/
def hSpeedSq (v : ℚ × ℚ) : ℚ := v.1 ^ 2 + v.2 ^ 2

lemma hSpeedSq_pos (v : ℚ × ℚ) (hv : v ≠ (0, 0)) : 0 < hSpeedSq v := by
  rcases eq_or_ne v.1 0 with h1 | h1
  · have h2 : v.2 ≠ 0 := by
      intro h2
      exact hv (Prod.ext h1 h2)
    have : 0 < v.2 ^ 2 := by positivity
    unfold hSpeedSq
    nlinarith [sq_nonneg v.1]
  · have : 0 < v.1 ^ 2 := by positivity
    unfold hSpeedSq
    nlinarith [sq_nonneg v.2]

lemma frictionScale_lt_one (deltaTime : ℚ) (hdt : 0 < deltaTime) :
    max 0 (1 - friction * deltaTime) < 1 := by
  unfold friction
  rw [max_lt_iff]
  constructor
  · norm_num
  · nlinarith

lemma frictionScale_nonneg (deltaTime : ℚ) :
    0 ≤ max 0 (1 - friction * deltaTime) := le_max_left 0 _

/-- One friction tick contracts the squared speed by at least the squared
scale factor. -/
lemma frictionStep_sq_le (deltaTime : ℚ) (v : ℚ × ℚ) :
    hSpeedSq (frictionStep deltaTime v) ≤
      max 0 (1 - friction * deltaTime) ^ 2 * hSpeedSq v := by
  unfold frictionStep
  split
  · unfold hSpeedSq
    apply le_of_eq
    ring
  · unfold hSpeedSq
    simp only
    have h1 : (0 : ℚ) ≤ max 0 (1 - friction * deltaTime) ^ 2 := by positivity
    have h2 : (0 : ℚ) ≤ v.1 ^ 2 + v.2 ^ 2 := by positivity
    nlinarith

/-- At or below the `0.001` speed cutoff the friction branch zeroes the
horizontal velocity exactly (camera.cpp lines 120-123). -/
lemma frictionStep_eq_zero_of_small (deltaTime : ℚ) (v : ℚ × ℚ)
    (h : hSpeedSq v ≤ (1 / 1000) ^ 2) : frictionStep deltaTime v = (0, 0) := by
  unfold hSpeedSq at h
  unfold frictionStep
  rw [if_neg (not_lt.mpr h)]

lemma frictionStep_iterate_sq_le (deltaTime : ℚ) (v : ℚ × ℚ) (n : ℕ) :
    hSpeedSq ((frictionStep deltaTime)^[n] v) ≤
      (max 0 (1 - friction * deltaTime) ^ 2) ^ n * hSpeedSq v := by
  induction n with
  | zero => simp
  | succ n ih =>
      rw [Function.iterate_succ_apply']
      calc hSpeedSq (frictionStep deltaTime ((frictionStep deltaTime)^[n] v)) ≤
          max 0 (1 - friction * deltaTime) ^ 2 *
            hSpeedSq ((frictionStep deltaTime)^[n] v) :=
            frictionStep_sq_le deltaTime _
        _ ≤ max 0 (1 - friction * deltaTime) ^ 2 *
            ((max 0 (1 - friction * deltaTime) ^ 2) ^ n * hSpeedSq v) := by
            have h1 : (0 : ℚ) ≤ max 0 (1 - friction * deltaTime) ^ 2 := by
              positivity
            exact mul_le_mul_of_nonneg_left ih h1
        _ = (max 0 (1 - friction * deltaTime) ^ 2) ^ (n + 1) * hSpeedSq v := by
            ring

/-- **C5.**  Grounded with zero movement input, for any fixed positive
`deltaTime`: the horizontal speed strictly decreases on every tick while it is
nonzero (its square does, and squaring is monotone on speeds), and from any
starting velocity it becomes exactly `(0, 0)` after finitely many ticks (the
exponential decay drives the speed under the `0.001` cutoff, whose branch
zeroes it exactly). -/
theorem friction_convergence (deltaTime : ℚ) (hdt : 0 < deltaTime) :
    (∀ v : ℚ × ℚ, v ≠ (0, 0) →
      hSpeedSq (frictionStep deltaTime v) < hSpeedSq v) ∧
    (∀ v : ℚ × ℚ, ∃ n : ℕ, (frictionStep deltaTime)^[n] v = (0, 0)) := by
  have hs1 : max 0 (1 - friction * deltaTime) < 1 := frictionScale_lt_one deltaTime hdt
  have hs0 : 0 ≤ max 0 (1 - friction * deltaTime) := frictionScale_nonneg deltaTime
  have hsq1 : max 0 (1 - friction * deltaTime) ^ 2 < 1 := by nlinarith
  have hsq0 : (0 : ℚ) ≤ max 0 (1 - friction * deltaTime) ^ 2 := by positivity
  constructor
  · intro v hv
    have hpos := hSpeedSq_pos v hv
    unfold frictionStep
    split
    · rename_i hbig
      unfold hSpeedSq
      have heq : (v.1 * max 0 (1 - friction * deltaTime)) ^ 2 +
          (v.2 * max 0 (1 - friction * deltaTime)) ^ 2 =
          max 0 (1 - friction * deltaTime) ^ 2 * (v.1 ^ 2 + v.2 ^ 2) := by ring
      rw [heq]
      have hgt : (0 : ℚ) < v.1 ^ 2 + v.2 ^ 2 := hpos
      nlinarith
    · unfold hSpeedSq
      simpa using hpos
  · intro v
    rcases le_or_lt (hSpeedSq v) ((1 / 1000) ^ 2) with hsmall | hbig
    · refine ⟨1, ?_⟩
      rw [Function.iterate_one]
      exact frictionStep_eq_zero_of_small deltaTime v hsmall
    · have hv0 : 0 < hSpeedSq v := lt_trans (by norm_num) hbig
      obtain ⟨n, hn⟩ := exists_pow_lt_of_lt_one
        (show (0 : ℚ) < (1 / 1000) ^ 2 / hSpeedSq v by positivity) hsq1
      refine ⟨n + 1, ?_⟩
      have hsmalln : hSpeedSq ((frictionStep deltaTime)^[n] v) ≤ (1 / 1000) ^ 2 := by
        have h1 := frictionStep_iterate_sq_le deltaTime v n
        have h2 : (max 0 (1 - friction * deltaTime) ^ 2) ^ n * hSpeedSq v <
            (1 / 1000) ^ 2 := by
          rw [← lt_div_iff₀ hv0]
          exact hn
        linarith
      rw [Function.iterate_succ_apply']
      exact frictionStep_eq_zero_of_small deltaTime _ hsmalln

/-- Witness for C5: one concrete tick at 60 Hz from speed 8 strictly shrinks
the squared speed, and the iteration reaches exactly zero. -/
theorem friction_convergence_witness :
    hSpeedSq (frictionStep (1 / 60) (8, 0)) < hSpeedSq (8, 0) ∧
    ∃ n : ℕ, (frictionStep (1 / 60))^[n] (8, 0) = (0, 0) :=
  ⟨(friction_convergence (1 / 60) (by norm_num)).1 (8, 0) (by decide),
    (friction_convergence (1 / 60) (by norm_num)).2 (8, 0)⟩

/-- `float step = 0.1f` (camera.cpp line 217). -/
def sdfNormalStep : ℚ := 1 / 10

/-- The central-difference gradient of `calculateSDFNormal` (camera.cpp lines
216-225).  The source samples `sampleSDF(chunkManager, ·)`; the embedding
abstracts that composition over the field-sample function, which C9
instantiates with the synthetic field. -/
def sdfGradient (sample : ℚ × ℚ × ℚ → ℚ) (pos : ℚ × ℚ × ℚ) : ℚ × ℚ × ℚ :=
  (sample (pos.1 + sdfNormalStep, pos.2.1, pos.2.2) -
      sample (pos.1 - sdfNormalStep, pos.2.1, pos.2.2),
    sample (pos.1, pos.2.1 + sdfNormalStep, pos.2.2) -
      sample (pos.1, pos.2.1 - sdfNormalStep, pos.2.2),
    sample (pos.1, pos.2.1, pos.2.2 + sdfNormalStep) -
      sample (pos.1, pos.2.1, pos.2.2 - sdfNormalStep))

/-- `calculateSDFNormal` (camera.cpp lines 216-228): the normalised
central-difference gradient, with the canonical up vector as the
degenerate-gradient fallback (`len > 0.001` guard, line 227). -/
noncomputable def calculateSDFNormal (sample : ℚ × ℚ × ℚ → ℚ)
    (pos : ℚ × ℚ × ℚ) : ℝ × ℝ × ℝ :=
  let g := sdfGradient sample pos
  let len : ℝ := Real.sqrt ((g.1 : ℝ) ^ 2 + (g.2.1 : ℝ) ^ 2 + (g.2.2 : ℝ) ^ 2)
  if 1 / 1000 < len then ((g.1 : ℝ) / len, (g.2.1 : ℝ) / len, (g.2.2 : ℝ) / len)
  else (0, 1, 0)

/-- The ground normal of the ground probe (camera.cpp line 255):
`groundNormal = -calculateSDFNormal(...)`. -/
noncomputable def groundNormalAt (sample : ℚ × ℚ × ℚ → ℚ)
    (pos : ℚ × ℚ × ℚ) : ℝ × ℝ × ℝ :=
  let n := calculateSDFNormal sample pos
  (-n.1, -n.2.1, -n.2.2)

/-- The slope angle of the ground probe (camera.cpp line 258):
`degrees(acos(clamp(dot(groundNormal, (0,1,0)), -1, 1)))`; the dot product
with world-up is the normal's y component. -/
noncomputable def slopeAngleOf (n : ℝ × ℝ × ℝ) : ℝ :=
  Real.arccos (min (max n.2.1 (-1)) 1) * (180 / Real.pi)

lemma calculateSDFNormal_vertical (sample : ℚ × ℚ × ℚ → ℚ) (pos : ℚ × ℚ × ℚ)
    (c : ℚ) (hg : sdfGradient sample pos = (0, c, 0)) (hc : (1 : ℝ) / 1000 < |(c : ℝ)|) :
    calculateSDFNormal sample pos = (0, (c : ℝ) / |(c : ℝ)|, 0) := by
  unfold calculateSDFNormal
  rw [hg]
  simp only
  have hsum : ((0 : ℚ) : ℝ) ^ 2 + ((c : ℚ) : ℝ) ^ 2 + ((0 : ℚ) : ℝ) ^ 2 =
      (c : ℝ) ^ 2 := by push_cast; ring
  rw [hsum, Real.sqrt_sq_eq_abs]
  rw [if_pos hc]
  have habs : |(c : ℝ)| ≠ 0 := by
    intro h
    rw [h] at hc
    norm_num at hc
  push_cast
  norm_num

/-- **C9, counterexample.**  For the synthetic field `f(x,y,z) = y` of the
claim — with the repository's sign convention this is solid *above* the plane
`y = 0` — the ground probe at the surface point `(0,0,0)` computes ground
normal `(0,-1,0)`, not `(0,1,0)`, and slope angle `180`, not `0`: the
central-difference gradient of `f` points along `+y`, and the probe negates
it. -/
theorem groundNormal_synthetic_counterexample :
    groundNormalAt (fun p => p.2.1) (0, 0, 0) = (0, -1, 0) ∧
    slopeAngleOf (groundNormalAt (fun p => p.2.1) (0, 0, 0)) = 180 ∧
    groundNormalAt (fun p => p.2.1) (0, 0, 0) ≠ ((0 : ℝ), (1 : ℝ), (0 : ℝ)) ∧
    slopeAngleOf (groundNormalAt (fun p => p.2.1) (0, 0, 0)) ≠ 0 ∧
    (fun p : ℚ × ℚ × ℚ => p.2.1) (0, 0, 0) = 0 := by
  have hg : sdfGradient (fun p : ℚ × ℚ × ℚ => p.2.1) (0, 0, 0) = (0, 1 / 5, 0) := by
    unfold sdfGradient sdfNormalStep
    norm_num
  have habs : |(((1 : ℚ) / 5 : ℚ) : ℝ)| = 1 / 5 := by
    push_cast
    rw [abs_of_pos]
    norm_num
  have hn : calculateSDFNormal (fun p : ℚ × ℚ × ℚ => p.2.1) (0, 0, 0) = (0, 1, 0) := by
    rw [calculateSDFNormal_vertical _ _ (1 / 5) hg (by rw [habs]; norm_num)]
    rw [habs]
    norm_num
  have hgn : groundNormalAt (fun p : ℚ × ℚ × ℚ => p.2.1) (0, 0, 0) = (0, -1, 0) := by
    unfold groundNormalAt
    rw [hn]
    norm_num
  have hsa : slopeAngleOf (groundNormalAt (fun p : ℚ × ℚ × ℚ => p.2.1) (0, 0, 0)) =
      180 := by
    rw [hgn]
    unfold slopeAngleOf
    norm_num
    rw [mul_comm]
    exact div_mul_cancel₀ 180 Real.pi_ne_zero
  refine ⟨hgn, hsa, ?_, ?_, rfl⟩
  · rw [hgn]
    intro h
    have h2 := congrArg (fun t : ℝ × ℝ × ℝ => t.2.1) h
    norm_num at h2
  · rw [hsa]
    norm_num

/-- **C9, amended.**  For the synthetic field `f(x,y,z) = -y` — flat ground at
`y = 0` under the convention "value > 0 inside solid" — the ground probe's
normal (negated, normalised central-difference gradient) equals `(0, 1, 0)`
exactly at every point (in particular at every surface point), and the slope
angle computed from it against world-up is `0`. -/
theorem groundNormal_flat_ground (pos : ℚ × ℚ × ℚ) :
    groundNormalAt (fun p => -p.2.1) pos = (0, 1, 0) ∧
    slopeAngleOf (groundNormalAt (fun p => -p.2.1) pos) = 0 := by
  have hg : sdfGradient (fun p : ℚ × ℚ × ℚ => -p.2.1) pos = (0, -(1 / 5), 0) := by
    unfold sdfGradient sdfNormalStep
    refine Prod.ext (by ring) (Prod.ext (by ring) (by ring))
  have habs : |((-(1 / 5) : ℚ) : ℝ)| = 1 / 5 := by
    push_cast
    rw [abs_neg, abs_of_pos]
    norm_num
  have hn : calculateSDFNormal (fun p : ℚ × ℚ × ℚ => -p.2.1) pos = (0, -1, 0) := by
    rw [calculateSDFNormal_vertical _ _ (-(1 / 5)) hg (by rw [habs]; norm_num)]
    rw [habs]
    norm_num
  have hgn : groundNormalAt (fun p : ℚ × ℚ × ℚ => -p.2.1) pos = (0, 1, 0) := by
    unfold groundNormalAt
    rw [hn]
    norm_num
  refine ⟨hgn, ?_⟩
  rw [hgn]
  unfold slopeAngleOf
  norm_num [Real.arccos_one]
